import Mathlib

/-!
# Verification of the crack-analyst session/history manager

Shallow embedding of the two React components of the repository:

* `src/src/CrackAnalyzer.jsx` — the offline variant: `loadHistory`,
  `analyzeCrack` (the stub collaborator), `handleImageUpload`,
  `deleteHistoryItem`, backed by the `window.storage` key-value primitive.
* `src/frontend/src/CrackAnalyzer.jsx` — the networked variant:
  `handleFileSelect`, `handleAnalyze` posting to the backend.

Modelling conventions:

* The key-value store is an insertion-ordered association list
  `List (String × StoreValue)`; `list`/`get`/`set`/`delete` of the
  external primitive are modelled by `storageList`/`storageGet`/
  `storageSet`/`storageDelete`.
* `JSON.stringify`/`JSON.parse` of a record are external (host)
  functions; a stored value is modelled as either a well-formed
  serialized record (`StoreValue.record`) or a blob that does not
  deserialize to a record (`StoreValue.corrupt`).
* Each `Math.floor(Math.random() * arr.length)` pick is modelled by an
  injected natural number reduced `% arr.length` (the design note of the
  spec: the stub is parameterized by an injectable random source).
* Exceptions of awaited calls (the analysis collaborator, `storage.set`,
  `storage.list`) are modelled by explicit outcome flags/arguments; the
  surrounding `try`/`catch`/`finally` structure is translated into the
  corresponding branches.
* `Date.now()` readings are injected `Nat` arguments (the two distinct
  readings of `handleImageUpload` are two distinct arguments);
  `(x).toString()` on such a reading is `natToString`, a decimal
  printer.
* Floating point width/length fields of the stub result (`toFixed`
  formatting) are not modelled; no claim refers to them.  For the same
  reason the `measurementUnit` field is carried but unused.
-/

/-! ## String helpers (models of `String.prototype` operations) -/

/-- `listIsPref p l` holds when `p` is a prefix of `l` (character lists). -/
def listIsPref : List Char → List Char → Bool
  | [], _ => true
  | _ :: _, [] => false
  | a :: as, b :: bs => a = b && listIsPref as bs

/-- `listHasSeg p l`: `p` occurs as a contiguous segment of `l`. -/
def listHasSeg : List Char → List Char → Bool
  | p, [] => listIsPref p []
  | p, c :: rest => listIsPref p (c :: rest) || listHasSeg p rest

/-- Model of `key.startsWith(pre)`. -/
def strStartsWith (s pre : String) : Bool :=
  listIsPref pre.data s.data

/-- Model of `s.includes(pat)` (JS substring containment). -/
def strIncludes (s pat : String) : Bool :=
  listHasSeg pat.data s.data

theorem listIsPref_self_append (p x : List Char) : listIsPref p (p ++ x) = true := by
  induction p with
  | nil => rfl
  | cons a as ih => simp [listIsPref, ih]

theorem string_data_append (a b : String) : (a ++ b).data = a.data ++ b.data := by
  cases a; cases b; rfl

theorem strStartsWith_append (pre x : String) :
    strStartsWith (pre ++ x) pre = true := by
  unfold strStartsWith
  rw [string_data_append]
  exact listIsPref_self_append pre.data x.data

/-! ## Decimal printing (model of `Date.now().toString()`)

`decChars f n` prints the decimal digits of `n` (most significant first)
given fuel `f`; `natToString` uses adequate fuel.  Injectivity of
`natToString` is the fact the spec's "unique, time-derived id" rests on,
so it is proved from first principles.
-/

/-- Fuel-driven decimal digit printer: digits of `n`, most significant first. -/
def decChars : Nat → Nat → List Char
  | 0, _ => []
  | f + 1, n => if n = 0 then [] else decChars f (n / 10) ++ [Nat.digitChar (n % 10)]

theorem decChars_succ (f n : Nat) :
    decChars (f + 1) n = if n = 0 then [] else decChars f (n / 10) ++ [Nat.digitChar (n % 10)] :=
  rfl

theorem decChars_of_zero : ∀ f, decChars f 0 = [] := by
  intro f
  cases f with
  | zero => rfl
  | succ f => simp [decChars_succ]

theorem decChars_fuel : ∀ v f g, v ≤ f → v ≤ g → decChars (f + 1) v = decChars (g + 1) v := by
  intro v
  induction v using Nat.strong_induction_on with
  | _ v ih =>
    intro f g hf hg
    by_cases hv : v = 0
    · simp [hv, decChars_of_zero]
    · rw [decChars_succ, decChars_succ]
      simp only [hv, if_false]
      have hvpos : 1 ≤ v := Nat.pos_of_ne_zero hv
      cases f with
      | zero => omega
      | succ f' =>
        cases g with
        | zero => omega
        | succ g' =>
          have hlt : v / 10 < v := Nat.div_lt_self hvpos (by norm_num)
          rw [ih (v / 10) hlt f' g' (by omega) (by omega)]

/-- The decimal digit list of `n` with canonical (adequate) fuel. -/
def canonDigits (n : Nat) : List Char := decChars (n + 1) n

theorem canonDigits_succ (n : Nat) (hn : n ≠ 0) :
    canonDigits n = canonDigits (n / 10) ++ [Nat.digitChar (n % 10)] := by
  unfold canonDigits
  rw [decChars_succ]
  simp only [hn, if_false]
  have hpos : 1 ≤ n := Nat.pos_of_ne_zero hn
  have hlt : n / 10 < n := Nat.div_lt_self hpos (by norm_num)
  cases n with
  | zero => exact absurd rfl hn
  | succ m =>
    rw [decChars_fuel ((m + 1) / 10) m ((m + 1) / 10) (by omega) (le_refl _)]

theorem canonDigits_eq_nil_iff (n : Nat) : canonDigits n = [] ↔ n = 0 := by
  constructor
  · intro h
    by_contra hn
    rw [canonDigits_succ n hn] at h
    simp at h
  · intro h
    simp [h, canonDigits, decChars_of_zero]

theorem digitChar_inj (a b : Nat) (ha : a < 10) (hb : b < 10)
    (h : Nat.digitChar a = Nat.digitChar b) : a = b := by
  interval_cases a <;> interval_cases b <;> simp_all [Nat.digitChar]

theorem append_singleton_inj {l₁ l₂ : List Char} {x y : Char}
    (h : l₁ ++ [x] = l₂ ++ [y]) : l₁ = l₂ ∧ x = y := by
  have hr := congrArg List.reverse h
  simp only [List.reverse_append, List.reverse_cons, List.reverse_nil,
    List.nil_append, List.singleton_append] at hr
  injection hr with hxy hrest
  refine ⟨?_, hxy⟩
  have := congrArg List.reverse hrest
  simpa using this

theorem canonDigits_inj : ∀ a b, a ≠ 0 → b ≠ 0 → canonDigits a = canonDigits b → a = b := by
  intro a
  induction a using Nat.strong_induction_on with
  | _ a ih =>
    intro b ha hb h
    rw [canonDigits_succ a ha, canonDigits_succ b hb] at h
    obtain ⟨hdiv, hmodc⟩ := append_singleton_inj h
    have hmod : a % 10 = b % 10 :=
      digitChar_inj _ _ (Nat.mod_lt _ (by norm_num)) (Nat.mod_lt _ (by norm_num)) hmodc
    by_cases hdz : a / 10 = 0
    · have hbz : b / 10 = 0 := by
        rw [← canonDigits_eq_nil_iff, ← hdiv, canonDigits_eq_nil_iff]
        exact hdz
      omega
    · have hbz : b / 10 ≠ 0 := by
        intro hz
        rw [hz, (canonDigits_eq_nil_iff 0).2 rfl] at hdiv
        exact hdz ((canonDigits_eq_nil_iff _).1 hdiv)
      have hlt : a / 10 < a := Nat.div_lt_self (Nat.pos_of_ne_zero ha) (by norm_num)
      have := ih (a / 10) hlt (b / 10) hdz hbz hdiv
      omega

/-- Model of `(n).toString()` for a non-negative integer `n` (decimal). -/
def natToString (n : Nat) : String :=
  if n = 0 then ⟨['0']⟩ else ⟨canonDigits n⟩

theorem natToString_injective : Function.Injective natToString := by
  intro a b h
  unfold natToString at h
  by_cases ha : a = 0 <;> by_cases hb : b = 0
  · omega
  · exfalso
    simp only [ha, if_true, hb, if_false] at h
    have hd : ['0'] = canonDigits b := congrArg String.data h
    rw [canonDigits_succ b hb] at hd
    have hd' : ([] : List Char) ++ ['0'] = canonDigits (b / 10) ++ [Nat.digitChar (b % 10)] := by
      simpa using hd
    obtain ⟨hdiv, hmodc⟩ := append_singleton_inj hd'
    have hmod : b % 10 = 0 := by
      have h0 : Nat.digitChar 0 = Nat.digitChar (b % 10) := by
        simpa [Nat.digitChar] using hmodc
      have := digitChar_inj 0 (b % 10) (by norm_num) (Nat.mod_lt _ (by norm_num)) h0
      omega
    have hdz : b / 10 = 0 := (canonDigits_eq_nil_iff _).1 hdiv.symm
    omega
  · exfalso
    simp only [ha, if_false, hb, if_true] at h
    have hd : canonDigits a = ['0'] := congrArg String.data h
    rw [canonDigits_succ a ha] at hd
    have hd' : canonDigits (a / 10) ++ [Nat.digitChar (a % 10)] = ([] : List Char) ++ ['0'] := by
      simpa using hd
    obtain ⟨hdiv, hmodc⟩ := append_singleton_inj hd'
    have hmod : a % 10 = 0 := by
      have h0 : Nat.digitChar (a % 10) = Nat.digitChar 0 := by
        simpa [Nat.digitChar] using hmodc
      have := digitChar_inj (a % 10) 0 (Nat.mod_lt _ (by norm_num)) (by norm_num) h0
      omega
    have hdz : a / 10 = 0 := (canonDigits_eq_nil_iff _).1 hdiv
    omega
  · simp only [ha, hb, if_false] at h
    have hd : canonDigits a = canonDigits b := congrArg String.data h
    exact canonDigits_inj a b ha hb hd

/-! ## Data model (offline variant, `src/src/CrackAnalyzer.jsx`) -/

/-- Detection sensitivity; the settings UI admits exactly
`"low"`, `"medium"`, `"high"` (the spec's `Low|Medium|High`). -/
inductive Sensitivity where
  | low
  | medium
  | high
deriving DecidableEq

/-- Measurement unit; the settings UI admits exactly `"metric"`, `"imperial"`. -/
inductive MeasUnit where
  | metric
  | imperial
deriving DecidableEq

/-- The `analysisParams` settings bag (spec: `AnalysisConfiguration`). -/
structure AnalysisParams where
  sensitivity : Sensitivity
  measurementUnit : MeasUnit
  includeRecommendations : Bool
deriving DecidableEq

/-- One injected random source for a single `analyzeCrack` call: each field
models one `Math.floor(Math.random() * arr.length)` draw. -/
structure RandomDraws where
  crackTypeIdx : Nat
  severityIdx : Nat
  patternIdx : Nat
  depthIdx : Nat
deriving DecidableEq

/-- The result object built by `analyzeCrack` (keys `"Crack Type"`,
`"Severity"`, `"Pattern"`, `"Depth Assessment"`, `"Risk Level"`,
`"Recommended Action"`; the floating-point width/length keys are not
modelled — no claim refers to them). -/
structure AnalysisResult where
  crackType : String
  severity : String
  pattern : String
  depthAssessment : String
  riskLevel : String
  recommendedAction : Option String
deriving DecidableEq

/-- The `severityLevels` table of `analyzeCrack`. -/
def severityLevels : Sensitivity → List String
  | .high => ["Severe", "Critical", "Major"]
  | .medium => ["Moderate", "Significant"]
  | .low => ["Minor", "Hairline"]

/-- Model of `arr[Math.floor(Math.random() * arr.length)]`:
the injected draw is reduced into range by `% arr.length`. -/
def pickIdx (l : List String) (i : Nat) : String :=
  l.getD (i % l.length) ""

/-- The offline stub collaborator `analyzeCrack` (lines 56–106 of
`src/src/CrackAnalyzer.jsx`), deterministic in the injected random source. -/
def analyzeCrack (p : AnalysisParams) (r : RandomDraws) : AnalysisResult :=
  let severity := pickIdx (severityLevels p.sensitivity) r.severityIdx
  { crackType := pickIdx ["Structural", "Surface", "Settlement", "Thermal"] r.crackTypeIdx
    severity := severity
    pattern := pickIdx ["Vertical", "Horizontal", "Diagonal", "Spider Web"] r.patternIdx
    depthAssessment := pickIdx ["Surface Only", "Partial Depth", "Full Depth"] r.depthIdx
    riskLevel :=
      if strIncludes severity "Severe" || strIncludes severity "Critical" then "High"
      else if strIncludes severity "Moderate" || strIncludes severity "Significant" then "Medium"
      else "Low"
    recommendedAction :=
      if p.includeRecommendations then
        some (if strIncludes severity "Severe" then "Immediate professional inspection required"
          else if strIncludes severity "Moderate" then "Schedule repair within 30 days"
          else "Monitor regularly, repair at convenience")
      else none }

/-- A selected file: declared byte size and media type, the data URL the
`FileReader` produces, and the object URL `URL.createObjectURL` produces. -/
structure ImageFile where
  size : Nat
  mediaType : String
  dataUrl : String
  objectUrl : String
deriving DecidableEq

/-- The persisted unit (`analysisRecord` of `handleImageUpload`;
spec: `Record`). -/
structure AnalysisRecord where
  id : String
  timestamp : Nat
  image : String
  result : AnalysisResult
deriving DecidableEq

/-! ## The key-value store primitive (`window.storage`) -/

/-- A stored value: either the serialization of a well-formed record
(`JSON.stringify` output) or a blob that does not deserialize to a
record (corrupted or foreign data). -/
inductive StoreValue where
  | record (r : AnalysisRecord)
  | corrupt (raw : String)
deriving DecidableEq

/-- Model of `JSON.parse` composed with the record-shape check
(`filter(Boolean)` keeps only truthy parsed records). -/
def parseStoreValue : StoreValue → Option AnalysisRecord
  | .record r => some r
  | .corrupt _ => none

/-- The store: an insertion-ordered association list of key/value pairs. -/
abbrev Store : Type := List (String × StoreValue)

/-- The keys currently present, in enumeration order. -/
def storeKeys (s : Store) : List String := s.map Prod.fst

/-- Model of `window.storage.list(pre)`: the keys under the given key
namespace, in enumeration order. -/
def storageList (s : Store) (pre : String) : List String :=
  (s.filter (fun kv => strStartsWith kv.1 pre)).map Prod.fst

/-- Model of `window.storage.get(key)`. -/
def storageGet (s : Store) (k : String) : Option StoreValue :=
  (s.find? (fun kv => kv.1 = k)).map Prod.snd

/-- Model of `window.storage.set(key, value)`: replace in place, or append. -/
def storageSet : Store → String → StoreValue → Store
  | [], k, v => [(k, v)]
  | (k', v') :: rest, k, v =>
    if k' = k then (k, v) :: rest else (k', v') :: storageSet rest k v

/-- Model of `window.storage.delete(key)` (idempotent). -/
def storageDelete (s : Store) (k : String) : Store :=
  s.filter (fun kv => kv.1 ≠ k)

/-- The fixed key namespace `"crack-analysis:"` of the Record Store Adapter. -/
def pfx : String := "crack-analysis:"

/-! ## Sorting (`.sort((a, b) => b.timestamp - a.timestamp)`)

JS `Array.prototype.sort` with a consistent comparator is a stable sort;
it is modelled by a stable insertion sort on the comparator's key. -/

/-- Stable insertion of `r` into a timestamp-descending list: `r` is placed
before the first strictly older element, after elements it ties with that
were already present (input order), matching JS sort stability. -/
def insertTsDesc (r : AnalysisRecord) : List AnalysisRecord → List AnalysisRecord
  | [] => [r]
  | x :: xs => if x.timestamp > r.timestamp then x :: insertTsDesc r xs else r :: x :: xs

/-- Model of `arr.sort((a, b) => b.timestamp - a.timestamp)`. -/
def sortTsDesc : List AnalysisRecord → List AnalysisRecord
  | [] => []
  | x :: xs => insertTsDesc x (sortTsDesc xs)

theorem insertTsDesc_perm (r : AnalysisRecord) (l : List AnalysisRecord) :
    List.Perm (insertTsDesc r l) (r :: l) := by
  induction l with
  | nil => simp [insertTsDesc]
  | cons x xs ih =>
    by_cases hx : x.timestamp > r.timestamp
    · simp only [insertTsDesc, hx, if_true]
      exact (List.Perm.cons x ih).trans (List.Perm.swap r x xs)
    · simp only [insertTsDesc, hx, if_false]
      exact List.Perm.refl _

theorem sortTsDesc_perm (l : List AnalysisRecord) : List.Perm (sortTsDesc l) l := by
  induction l with
  | nil => simp [sortTsDesc]
  | cons x xs ih =>
    exact (insertTsDesc_perm x (sortTsDesc xs)).trans (List.Perm.cons x ih)

theorem mem_insertTsDesc {b r : AnalysisRecord} {l : List AnalysisRecord} :
    b ∈ insertTsDesc r l ↔ b = r ∨ b ∈ l := by
  rw [(insertTsDesc_perm r l).mem_iff, List.mem_cons]

theorem insertTsDesc_pairwise (r : AnalysisRecord) (l : List AnalysisRecord)
    (h : l.Pairwise (fun a b => b.timestamp ≤ a.timestamp)) :
    (insertTsDesc r l).Pairwise (fun a b => b.timestamp ≤ a.timestamp) := by
  induction l with
  | nil => simp [insertTsDesc]
  | cons x xs ih =>
    rw [List.pairwise_cons] at h
    by_cases hx : x.timestamp > r.timestamp
    · simp only [insertTsDesc, hx, if_true]
      rw [List.pairwise_cons]
      refine ⟨?_, ih h.2⟩
      intro b hb
      rcases mem_insertTsDesc.1 hb with rfl | hmem
      · omega
      · exact h.1 b hmem
    · simp only [insertTsDesc, hx, if_false]
      rw [List.pairwise_cons]
      constructor
      · intro b hb
        rcases List.mem_cons.1 hb with rfl | hmem
        · omega
        · have := h.1 b hmem
          omega
      · rw [List.pairwise_cons]
        exact h

theorem sortTsDesc_pairwise (l : List AnalysisRecord) :
    (sortTsDesc l).Pairwise (fun a b => b.timestamp ≤ a.timestamp) := by
  induction l with
  | nil => simp [sortTsDesc]
  | cons x xs ih => exact insertTsDesc_pairwise x (sortTsDesc xs) ih

theorem filter_insertTsDesc (r : AnalysisRecord) (l : List AnalysisRecord) (t : Nat) :
    (insertTsDesc r l).filter (fun q => q.timestamp = t) =
      (if r.timestamp = t then [r] else []) ++ l.filter (fun q => q.timestamp = t) := by
  induction l with
  | nil => by_cases hr : r.timestamp = t <;> simp [insertTsDesc, hr]
  | cons x xs ih =>
    by_cases hx : x.timestamp > r.timestamp
    · simp only [insertTsDesc, hx, if_true]
      by_cases hr : r.timestamp = t
      · have hxt : ¬ (x.timestamp = t) := by omega
        simp only [List.filter_cons, ih, hr, if_true]
        simp [hxt]
      · simp only [List.filter_cons, ih, hr, if_false]
        by_cases hxt : x.timestamp = t <;> simp [hxt]
    · simp only [insertTsDesc, hx, if_false]
      by_cases hr : r.timestamp = t <;> simp [List.filter_cons, hr]

/-- Stability: the sort preserves the relative (input) order of records
with equal timestamps. -/
theorem sortTsDesc_stable (l : List AnalysisRecord) (t : Nat) :
    (sortTsDesc l).filter (fun q => q.timestamp = t) =
      l.filter (fun q => q.timestamp = t) := by
  induction l with
  | nil => simp [sortTsDesc]
  | cons x xs ih =>
    show (insertTsDesc x (sortTsDesc xs)).filter (fun q => q.timestamp = t) = _
    rw [filter_insertTsDesc, ih]
    by_cases hx : x.timestamp = t <;> simp [List.filter_cons, hx]

/-! ## Session state and history loading (offline variant) -/

/-- The UI-facing session state of the offline component (the `useState`
hooks that carry session/history data; the modal-visibility booleans and
the settings bag are presentation state and are passed separately). -/
structure AppState where
  uploadedImage : Option String
  analyzing : Bool
  result : Option AnalysisResult
  history : List AnalysisRecord
deriving DecidableEq

/-- Per-key body of `loadHistory`: `await storage.get(key)`, `JSON.parse`,
with the inner `try`/`catch` returning `null` on any failure, and the
`item ? ... : null` guard for an absent item. -/
def fetchEntry (s : Store) (k : String) : Option AnalysisRecord :=
  (storageGet s k).bind parseStoreValue

/-- The history list computed by a successful `loadHistory` pass over the
given keys: `filter(Boolean)` then sort by timestamp descending. -/
def historyOfKeys (s : Store) (keys : List String) : List AnalysisRecord :=
  sortTsDesc (keys.filterMap (fetchEntry s))

/-- Model of `loadHistory` (lines 32–54).  The outcome of the
`window.storage.list` call is injected: `.error` models the call throwing
(the `catch` sets the history to `[]`), `.ok none` models a falsy result
or one without `keys` (the `if` guard skips, leaving state unchanged),
`.ok (some keys)` is the normal case. -/
def loadHistoryStep (st : AppState) (s : Store)
    (listOutcome : Except Unit (Option (List String))) : AppState :=
  match listOutcome with
  | .error _ => { st with history := [] }
  | .ok none => st
  | .ok (some keys) => { st with history := historyOfKeys s keys }

/-- The history view of a store under the fixed namespace (a successful
`loadHistory`). -/
def loadHistoryView (s : Store) : List AnalysisRecord :=
  historyOfKeys s (storageList s pfx)

/-- The record object built on gateway success (lines 122–127):
`{ id: Date.now().toString(), timestamp: Date.now(), image, result }`,
with the two clock readings injected. -/
def mkRecord (tId tTs : Nat) (f : ImageFile) (p : AnalysisParams)
    (r : RandomDraws) : AnalysisRecord :=
  { id := natToString tId
    timestamp := tTs
    image := f.dataUrl
    result := analyzeCrack p r }

/-- Instrumented outcome of one `handleImageUpload` invocation. -/
structure UploadResult where
  state : AppState
  store : Store
  /-- whether the analysis collaborator (the stub) was invoked -/
  gatewayCalled : Bool
  /-- the record objects constructed during the call (0 or 1) -/
  created : List AnalysisRecord
  /-- `console.error` messages emitted by the `catch` branch -/
  consoleLog : List String
deriving DecidableEq

/-- Model of `handleImageUpload` (lines 108–142).  The file (if any), the
settings bag, the random draws, the two `Date.now()` readings, and the
outcomes of the awaited calls are injected:
`gwFails` — the awaited analysis rejects (caught by the `catch`);
`setFails` — `storage.set` rejects (caught by the `catch`, *after*
`setResult` already ran); `listFails` — the `storage.list` inside the
nested `loadHistory` rejects (handled inside `loadHistory`).
Note the function performs no size or media-type check on the file. -/
def handleImageUpload (st : AppState) (s : Store) (file : Option ImageFile)
    (p : AnalysisParams) (r : RandomDraws) (gwFails setFails listFails : Bool)
    (tId tTs : Nat) : UploadResult :=
  match file with
  | none => { state := st, store := s, gatewayCalled := false, created := [], consoleLog := [] }
  | some f =>
    -- reader.onload: setUploadedImage, setAnalyzing(true), setResult(null)
    let st1 : AppState := { st with uploadedImage := some f.dataUrl, analyzing := true, result := none }
    if gwFails then
      -- catch, then finally setAnalyzing(false)
      { state := { st1 with analyzing := false }, store := s, gatewayCalled := true,
        created := [], consoleLog := ["Analysis failed:"] }
    else
      let res := analyzeCrack p r
      let st2 := { st1 with result := some res }
      let rcd := mkRecord tId tTs f p r
      if setFails then
        { state := { st2 with analyzing := false }, store := s, gatewayCalled := true,
          created := [rcd], consoleLog := ["Analysis failed:"] }
      else
        let s2 := storageSet s (pfx ++ rcd.id) (.record rcd)
        let st3 := loadHistoryStep st2 s2
          (if listFails then .error () else .ok (some (storageList s2 pfx)))
        { state := { st3 with analyzing := false }, store := s2, gatewayCalled := true,
          created := [rcd], consoleLog := [] }

/-- Model of `deleteHistoryItem` (lines 144–151): `storage.delete` on the
namespaced key, then `loadHistory` (both modelled as succeeding; the
store primitive's `delete` is idempotent by contract). -/
def deleteHistoryItem (st : AppState) (s : Store) (id : String) : AppState × Store :=
  let s2 := storageDelete s (pfx ++ id)
  (loadHistoryStep st s2 (.ok (some (storageList s2 pfx))), s2)

/-- The render condition of the results card: `result && !analyzing`. -/
def displayShowsResult (st : AppState) : Bool :=
  st.result.isSome && !st.analyzing

/-! ## The networked variant (`src/frontend/src/CrackAnalyzer.jsx`) -/

/-- The parsed response body of the backend (opaque beyond its
discriminant for the purposes of the claims). -/
structure NetAnalysisData where
  status : String
deriving DecidableEq

/-- Component state of the networked variant. -/
structure NetState where
  selectedFile : Option ImageFile
  preview : Option String
  loading : Bool
  result : Option NetAnalysisData
  error : Option String
deriving DecidableEq

/-- Outcome of the `fetch` to `${API_URL}/analyze`: a parsed successful
response, or any transport/HTTP failure (non-ok status throws, and both
that and network errors land in the same `catch`). -/
inductive FetchOutcome where
  | success (data : NetAnalysisData)
  | failure
deriving DecidableEq

/-- Model of `handleFileSelect` (lines 19–27): no size or type check. -/
def handleFileSelect (st : NetState) (file : Option ImageFile) : NetState :=
  match file with
  | none => st
  | some f =>
    { st with
      selectedFile := some f
      preview := some f.objectUrl
      result := none
      error := none }

/-- Model of `handleAnalyze` (lines 29–56).  Returns the new state and
whether the network request was issued.  The only guard is
`if (!selectedFile) return`; no size or media-type check is performed. -/
def handleAnalyze (apiUrl : String) (st : NetState) (outcome : FetchOutcome) :
    NetState × Bool :=
  match st.selectedFile with
  | none => (st, false)
  | some _ =>
    match outcome with
    | .success data =>
      ({ st with loading := false, error := none, result := some data }, true)
    | .failure =>
      ({ st with
         loading := false
         error := some ("Failed to analyze image. Check backend is running at " ++ apiUrl) }, true)

/-- The `disabled` attribute of the Analyze button:
`disabled={!selectedFile || loading}` (line 128). -/
def analyzeButtonDisabled (st : NetState) : Bool :=
  st.selectedFile.isNone || st.loading

/-! ## Store lemmas -/

theorem storageSet_of_fresh (s : Store) (k : String) (v : StoreValue)
    (h : k ∉ storeKeys s) : storageSet s k v = s ++ [(k, v)] := by
  induction s with
  | nil => rfl
  | cons kv rest ih =>
    simp only [storeKeys, List.map_cons, List.mem_cons] at h
    push_neg at h
    show (if kv.1 = k then (k, v) :: rest else kv :: storageSet rest k v) = _
    rw [if_neg (fun he => h.1 he.symm)]
    rw [ih (by simpa [storeKeys] using h.2)]
    rfl

theorem storeKeys_append (s₁ s₂ : Store) :
    storeKeys (s₁ ++ s₂) = storeKeys s₁ ++ storeKeys s₂ := by
  simp [storeKeys]

theorem storeKeys_storageSet (s : Store) (k : String) (v : StoreValue) :
    storeKeys (storageSet s k v) =
      if k ∈ storeKeys s then storeKeys s else storeKeys s ++ [k] := by
  induction s with
  | nil => simp [storeKeys, storageSet]
  | cons kv rest ih =>
    show storeKeys (if kv.1 = k then (k, v) :: rest else kv :: storageSet rest k v) = _
    by_cases hk : kv.1 = k
    · rw [if_pos hk]
      simp [storeKeys, hk]
    · rw [if_neg hk]
      simp only [storeKeys, List.map_cons] at ih ⊢
      rw [ih]
      have hne : ¬(k = kv.1) := fun h => hk h.symm
      by_cases hm : k ∈ List.map Prod.fst rest
      · simp [List.mem_cons, hm, hne]
      · simp [List.mem_cons, hm, hne]

theorem nodup_storeKeys_storageSet (s : Store) (k : String) (v : StoreValue)
    (h : (storeKeys s).Nodup) : (storeKeys (storageSet s k v)).Nodup := by
  rw [storeKeys_storageSet]
  by_cases hm : k ∈ storeKeys s
  · simpa [hm] using h
  · simp only [hm, if_false]
    rw [List.nodup_append]
    refine ⟨h, List.nodup_singleton k, ?_⟩
    intro a ha hb
    simp only [List.mem_singleton] at hb
    subst hb
    exact hm ha

theorem map_fst_filterKey (p : String → Bool) (s : Store) :
    List.map Prod.fst (s.filter (fun kv => p kv.1)) = (List.map Prod.fst s).filter p := by
  induction s with
  | nil => rfl
  | cons kv rest ih =>
    cases hp : p kv.1 <;> simp [List.filter_cons, hp, ih]

theorem storeKeys_storageDelete (s : Store) (k : String) :
    storeKeys (storageDelete s k) = (storeKeys s).filter (fun k' => k' ≠ k) := by
  show List.map Prod.fst (s.filter fun kv => kv.1 ≠ k) = _
  exact map_fst_filterKey (fun k' => decide (k' ≠ k)) s

theorem nodup_storeKeys_storageDelete (s : Store) (k : String)
    (h : (storeKeys s).Nodup) : (storeKeys (storageDelete s k)).Nodup := by
  rw [storeKeys_storageDelete]
  exact h.filter _

/-! ## Characterizing the history view -/

theorem storageGet_cons_self (k : String) (v : StoreValue) (rest : Store) :
    storageGet ((k, v) :: rest) k = some v := by
  simp [storageGet, List.find?_cons]

theorem storageGet_cons_ne (k k' : String) (v : StoreValue) (rest : Store)
    (h : k' ≠ k) : storageGet ((k, v) :: rest) k' = storageGet rest k' := by
  have hd : (decide (k = k')) = false := decide_eq_false (fun he => h he.symm)
  simp [storageGet, List.find?_cons, hd]

theorem storageList_cons (kv : String × StoreValue) (rest : Store) (pre : String) :
    storageList (kv :: rest) pre =
      if strStartsWith kv.1 pre then kv.1 :: storageList rest pre
      else storageList rest pre := by
  simp only [storageList, List.filter_cons]
  by_cases hp : strStartsWith kv.1 pre <;> simp [hp]

theorem mem_storageList_sub (s : Store) (pre : String) (k : String)
    (h : k ∈ storageList s pre) : k ∈ storeKeys s := by
  simp only [storageList, List.mem_map] at h
  obtain ⟨kv, hkv, rfl⟩ := h
  exact List.mem_map_of_mem Prod.fst (List.mem_of_mem_filter hkv)

/-- The per-entry extraction the history view amounts to on a store with
no duplicate keys: namespaced keys with well-formed values contribute
their record, everything else is dropped. -/
def directExtract (s : Store) : List AnalysisRecord :=
  s.filterMap (fun kv => if strStartsWith kv.1 pfx then parseStoreValue kv.2 else none)

theorem extract_eq_directExtract (s : Store) (h : (storeKeys s).Nodup) :
    (storageList s pfx).filterMap (fetchEntry s) = directExtract s := by
  induction s with
  | nil => rfl
  | cons kv rest ih =>
    obtain ⟨k, v⟩ := kv
    simp only [storeKeys, List.map_cons, List.nodup_cons] at h
    have htail : (storageList rest pfx).filterMap (fetchEntry ((k, v) :: rest)) =
        (storageList rest pfx).filterMap (fetchEntry rest) := by
      refine List.filterMap_congr ?_
      intro k' hk'
      have hne : k' ≠ k := by
        intro he
        subst he
        exact h.1 (mem_storageList_sub rest pfx k' hk')
      unfold fetchEntry
      rw [storageGet_cons_ne k k' v rest hne]
    rw [storageList_cons]
    by_cases hp : strStartsWith k pfx
    · simp only [hp, if_true]
      rw [List.filterMap_cons]
      have hhead : fetchEntry ((k, v) :: rest) k = parseStoreValue v := by
        unfold fetchEntry
        rw [storageGet_cons_self]
        rfl
      rw [hhead, htail, ih h.2]
      cases hv : parseStoreValue v <;>
        simp [directExtract, List.filterMap_cons, hp, hv]
    · simp only [hp, Bool.false_eq_true, if_false]
      rw [htail, ih h.2]
      simp [directExtract, List.filterMap_cons, hp]

theorem loadHistoryView_eq (s : Store) (h : (storeKeys s).Nodup) :
    loadHistoryView s = sortTsDesc (directExtract s) := by
  unfold loadHistoryView historyOfKeys
  rw [extract_eq_directExtract s h]

theorem directExtract_append (s₁ s₂ : Store) :
    directExtract (s₁ ++ s₂) = directExtract s₁ ++ directExtract s₂ := by
  simp [directExtract]

theorem directExtract_corrupt_cons (k : String) (raw : String) (s : Store) :
    directExtract ((k, .corrupt raw) :: s) = directExtract s := by
  by_cases hp : strStartsWith k pfx <;>
    simp [directExtract, List.filterMap_cons, hp, parseStoreValue]

/-- Membership in the history view of a duplicate-free store: every
namespaced well-formed entry is retained. -/
theorem record_mem_loadHistoryView (s : Store) (k : String) (r : AnalysisRecord)
    (hnd : (storeKeys s).Nodup) (hmem : (k, StoreValue.record r) ∈ s)
    (hp : strStartsWith k pfx = true) : r ∈ loadHistoryView s := by
  rw [loadHistoryView_eq s hnd]
  rw [(sortTsDesc_perm (directExtract s)).mem_iff]
  simp only [directExtract, List.mem_filterMap]
  exact ⟨(k, .record r), hmem, by simp [hp, parseStoreValue]⟩

/-! ## Counting records under the namespace -/

/-- The number of entries under the namespace (`listAll` cardinality). -/
def countRecords (s : Store) : Nat := (storageList s pfx).length

theorem countRecords_append_record (s : Store) (k : String) (v : StoreValue)
    (hp : strStartsWith k pfx = true) :
    countRecords (s ++ [(k, v)]) = countRecords s + 1 := by
  unfold countRecords storageList
  rw [List.filter_append]
  simp [hp]

theorem countRecords_storageSet_fresh (s : Store) (k : String) (v : StoreValue)
    (hfresh : k ∉ storeKeys s) (hp : strStartsWith k pfx = true) :
    countRecords (storageSet s k v) = countRecords s + 1 := by
  rw [storageSet_of_fresh s k v hfresh]
  exact countRecords_append_record s k v hp

theorem storageList_eq_keys_filter (s : Store) (pre : String) :
    storageList s pre = (storeKeys s).filter (fun k => strStartsWith k pre) :=
  map_fst_filterKey (fun k => strStartsWith k pre) s

theorem filter_remove_one (l : List String) (k : String) (p : String → Bool)
    (hnd : l.Nodup) (hmem : k ∈ l) (hp : p k = true) :
    ((l.filter (fun x => x ≠ k)).filter p).length + 1 = (l.filter p).length := by
  induction l with
  | nil => simp at hmem
  | cons x xs ih =>
    rw [List.nodup_cons] at hnd
    by_cases hx : x = k
    · subst hx
      have hxs : xs.filter (fun y => y ≠ x) = xs := by
        apply List.filter_eq_self.2
        intro y hy
        simp only [decide_eq_true_eq]
        intro he
        exact hnd.1 (he ▸ hy)
      rw [List.filter_cons]
      simp only [decide_eq_true_eq]
      rw [if_neg (by simp)]
      rw [hxs, List.filter_cons, if_pos (by simpa using hp)]
      simp
    · have hmem' : k ∈ xs := by
        rcases List.mem_cons.1 hmem with h | h
        · exact absurd h.symm hx
        · exact h
      have hrec := ih hnd.2 hmem'
      rw [List.filter_cons]
      simp only [decide_eq_true_eq]
      rw [if_pos (by simpa using hx)]
      rw [List.filter_cons, List.filter_cons]
      by_cases hpx : p x
      · simp only [hpx, if_true]
        simpa using hrec
      · simp only [hpx, Bool.false_eq_true, if_false]
        exact hrec

theorem countRecords_storageDelete_present (s : Store) (k : String)
    (hnd : (storeKeys s).Nodup) (hmem : k ∈ storeKeys s)
    (hp : strStartsWith k pfx = true) :
    countRecords (storageDelete s k) + 1 = countRecords s := by
  unfold countRecords
  rw [storageList_eq_keys_filter, storageList_eq_keys_filter, storeKeys_storageDelete]
  exact filter_remove_one (storeKeys s) k (fun k' => strStartsWith k' pfx) hnd hmem hp

/-! ## Session runs

A run is a sequence of user operations, each carrying its injected
inputs (file, settings, random draws, clock readings) and the outcomes
of its awaited calls. -/

/-- One user operation of a session. -/
inductive Op where
  /-- a file selection triggering `handleImageUpload` -/
  | upload (f : ImageFile) (p : AnalysisParams) (r : RandomDraws)
      (gwFails setFails listFails : Bool) (tId tTs : Nat)
  /-- a click of the delete button, `deleteHistoryItem id` -/
  | del (id : String)
deriving DecidableEq

/-- Apply one operation to the session state and store. -/
def stepOp : AppState × Store → Op → AppState × Store
  | (st, s), .upload f p r gwFails setFails listFails tId tTs =>
    let u := handleImageUpload st s (some f) p r gwFails setFails listFails tId tTs
    (u.state, u.store)
  | (st, s), .del id => deleteHistoryItem st s id

/-- Run a sequence of operations. -/
def runOps (init : AppState × Store) (ops : List Op) : AppState × Store :=
  ops.foldl stepOp init

/-- Number of analyses in the run whose gateway call succeeded
(the analysis itself succeeded, whether or not the write did). -/
def successCount (ops : List Op) : Nat :=
  (ops.filter fun op => match op with
    | .upload _ _ _ gwFails _ _ _ _ => !gwFails
    | .del _ => false).length

/-- Number of analyses whose gateway call and store write both succeeded. -/
def persistedCount (ops : List Op) : Nat :=
  (ops.filter fun op => match op with
    | .upload _ _ _ gwFails setFails _ _ _ => !gwFails && !setFails
    | .del _ => false).length

/-- Number of explicit deletions in the run. -/
def delCount (ops : List Op) : Nat :=
  (ops.filter fun op => match op with
    | .upload _ _ _ _ _ _ _ _ => false
    | .del _ => true).length

/-- The key a persisted upload writes. -/
def opKey (tId : Nat) : String := pfx ++ natToString tId

/-- Well-formed run: every persisted upload uses a fresh key and every
deletion targets a present key (the intended operating conditions: no
clock collision between two persisted analyses, deletions issued from
the rendered history). -/
def WFRun : AppState × Store → List Op → Prop
  | _, [] => True
  | (st, s), op :: rest =>
    (match op with
     | .upload _ _ _ gwFails setFails _ tId _ =>
       (!gwFails && !setFails) = true → opKey tId ∉ storeKeys s
     | .del id => (pfx ++ id) ∈ storeKeys s) ∧
    WFRun (stepOp (st, s) op) rest

/-- The records constructed by the run (in construction order); a record
object is built exactly when the gateway call succeeds, before the store
write is attempted. -/
def createdRecords (ops : List Op) : List AnalysisRecord :=
  ops.flatMap fun op => match op with
    | .upload f p r gwFails _ _ tId tTs => if gwFails then [] else [mkRecord tId tTs f p r]
    | .del _ => []

/-- The `Date.now()` readings consumed by the run, in reading order. -/
def clockReads (ops : List Op) : List Nat :=
  ops.flatMap fun op => match op with
    | .upload _ _ _ _ _ _ tId tTs => [tId, tTs]
    | .del _ => []

/-- The id-clock readings of the records actually constructed. -/
def createdIdReads (ops : List Op) : List Nat :=
  ops.flatMap fun op => match op with
    | .upload _ _ _ gwFails _ _ tId _ => if gwFails then [] else [tId]
    | .del _ => []

theorem stepOp_upload_store (st : AppState) (s : Store) (f : ImageFile)
    (p : AnalysisParams) (r : RandomDraws) (gwFails setFails listFails : Bool)
    (tId tTs : Nat) :
    (stepOp (st, s) (.upload f p r gwFails setFails listFails tId tTs)).2 =
      if gwFails || setFails then s
      else storageSet s (opKey tId) (.record (mkRecord tId tTs f p r)) := by
  cases gwFails <;> cases setFails <;>
    simp [stepOp, handleImageUpload, opKey, mkRecord]

theorem stepOp_del_store (st : AppState) (s : Store) (id : String) :
    (stepOp (st, s) (.del id)).2 = storageDelete s (pfx ++ id) := rfl

theorem nodup_stepOp (st : AppState) (s : Store) (op : Op)
    (hnd : (storeKeys s).Nodup) : (storeKeys (stepOp (st, s) op).2).Nodup := by
  cases op with
  | upload f p r gwFails setFails listFails tId tTs =>
    rw [stepOp_upload_store]
    cases gwFails <;> cases setFails <;> simp only [Bool.false_or, Bool.true_or,
      Bool.or_false, Bool.or_true, if_true, if_false]
    · exact nodup_storeKeys_storageSet _ _ _ hnd
    · exact hnd
    · exact hnd
    · exact hnd
  | del id =>
    rw [stepOp_del_store]
    exact nodup_storeKeys_storageDelete _ _ hnd

theorem run_count_invariant : ∀ (ops : List Op) (st : AppState) (s : Store),
    (storeKeys s).Nodup → WFRun (st, s) ops →
    countRecords ((runOps (st, s) ops).2) + delCount ops =
      countRecords s + persistedCount ops := by
  intro ops
  induction ops with
  | nil =>
    intro st s _ _
    simp [runOps, delCount, persistedCount, countRecords]
  | cons op rest ih =>
    intro st s hnd hwf
    obtain ⟨hwf0, hwfrest⟩ := hwf
    have hstep : runOps (st, s) (op :: rest) = runOps (stepOp (st, s) op) rest := rfl
    rw [hstep]
    have hnd' : (storeKeys (stepOp (st, s) op).2).Nodup := nodup_stepOp st s op hnd
    have ihr := ih (stepOp (st, s) op).1 (stepOp (st, s) op).2 hnd'
      (by
        have : (( (stepOp (st, s) op).1, (stepOp (st, s) op).2) : AppState × Store)
            = stepOp (st, s) op := rfl
        rw [this]
        exact hwfrest)
    rw [show ((( (stepOp (st, s) op).1, (stepOp (st, s) op).2) : AppState × Store))
      = stepOp (st, s) op from rfl] at ihr
    cases op with
    | upload f p r gwFails setFails listFails tId tTs =>
      have hstore := stepOp_upload_store st s f p r gwFails setFails listFails tId tTs
      cases hgw : gwFails with
      | true =>
        have hs : (stepOp (st, s) (.upload f p r gwFails setFails listFails tId tTs)).2 = s := by
          rw [hstore, hgw]
          simp
        rw [hs] at ihr
        simp only [delCount, persistedCount, List.filter_cons, hgw] at ihr ⊢
        simp only [Bool.not_true, Bool.false_and, Bool.and_false] at ihr ⊢
        simp at ihr ⊢
        omega
      | false =>
        cases hset : setFails with
        | true =>
          have hs : (stepOp (st, s) (.upload f p r gwFails setFails listFails tId tTs)).2 = s := by
            rw [hstore, hgw, hset]
            simp
          rw [hs] at ihr
          simp only [delCount, persistedCount, List.filter_cons, hgw, hset] at ihr ⊢
          simp at ihr ⊢
          omega
        | false =>
          have hfresh : opKey tId ∉ storeKeys s := by
            apply hwf0
            rw [hgw, hset]
            rfl
          have hs : (stepOp (st, s) (.upload f p r gwFails setFails listFails tId tTs)).2 =
              storageSet s (opKey tId) (.record (mkRecord tId tTs f p r)) := by
            rw [hstore, hgw, hset]
            simp
          rw [hs] at ihr
          rw [countRecords_storageSet_fresh s (opKey tId) _ hfresh
            (strStartsWith_append pfx (natToString tId))] at ihr
          simp only [delCount, persistedCount, List.filter_cons, hgw, hset] at ihr ⊢
          simp at ihr ⊢
          omega
    | del id =>
      have hpres : (pfx ++ id) ∈ storeKeys s := hwf0
      have hs := stepOp_del_store st s id
      rw [hs] at ihr
      have hdel := countRecords_storageDelete_present s (pfx ++ id) hnd hpres
        (strStartsWith_append pfx id)
      simp only [delCount, persistedCount, List.filter_cons] at ihr ⊢
      simp at ihr ⊢
      omega

theorem createdTs_sublist (ops : List Op) :
    List.Sublist ((createdRecords ops).map AnalysisRecord.timestamp) (clockReads ops) := by
  induction ops with
  | nil => simp [createdRecords, clockReads]
  | cons op rest ih =>
    cases op with
    | upload f p r gwFails setFails listFails tId tTs =>
      cases gwFails with
      | true =>
        simp only [createdRecords, clockReads, List.flatMap_cons, if_true, List.nil_append]
        exact List.Sublist.cons tId (List.Sublist.cons tTs ih)
      | false =>
        simp only [createdRecords, clockReads, List.flatMap_cons, if_false,
          List.singleton_append, List.map_cons]
        exact List.Sublist.cons tId (List.Sublist.cons₂ tTs ih)
    | del id =>
      simp only [createdRecords, clockReads, List.flatMap_cons, List.nil_append]
      exact ih

theorem createdIds_eq (ops : List Op) :
    (createdRecords ops).map AnalysisRecord.id = (createdIdReads ops).map natToString := by
  induction ops with
  | nil => rfl
  | cons op rest ih =>
    cases op with
    | upload f p r gwFails setFails listFails tId tTs =>
      cases gwFails with
      | true => simpa [createdRecords, createdIdReads, List.flatMap_cons] using ih
      | false =>
        simp only [createdRecords, createdIdReads] at ih
        simp only [createdRecords, createdIdReads, List.flatMap_cons, Bool.false_eq_true,
          if_false, List.singleton_append, List.map_cons]
        rw [show (mkRecord tId tTs f p r).id = natToString tId from rfl, ih]
    | del id =>
      simpa [createdRecords, createdIdReads, List.flatMap_cons] using ih

/-! ## Concrete fixtures for witnesses and counterexamples -/

/-- Default settings: `{ sensitivity: "medium", measurementUnit: "metric",
includeRecommendations: true }` (lines 22–26). -/
def params0 : AnalysisParams :=
  { sensitivity := .medium, measurementUnit := .metric, includeRecommendations := true }

/-- A fixed random source. -/
def draws0 : RandomDraws := { crackTypeIdx := 0, severityIdx := 0, patternIdx := 0, depthIdx := 0 }

/-- A 15 MiB PNG file (over the documented 10 MB ceiling). -/
def file15MiB : ImageFile :=
  { size := 15 * 1024 * 1024, mediaType := "image/png",
    dataUrl := "data:image/png;base64,AAAA", objectUrl := "blob:a" }

/-- A small non-image file. -/
def filePdf : ImageFile :=
  { size := 4096, mediaType := "application/pdf",
    dataUrl := "data:application/pdf;base64,BBBB", objectUrl := "blob:b" }

/-- A small valid JPEG file. -/
def fileJpeg : ImageFile :=
  { size := 2 * 1024 * 1024, mediaType := "image/jpeg",
    dataUrl := "data:image/jpeg;base64,CCCC", objectUrl := "blob:c" }

/-- The initial session state. -/
def emptyState : AppState :=
  { uploadedImage := none, analyzing := false, result := none, history := [] }

/-- A session state with an analysis in flight. -/
def busyState : AppState :=
  { uploadedImage := some "data:old", analyzing := true, result := none, history := [] }

/-- The initial state of the networked component. -/
def netEmpty : NetState :=
  { selectedFile := none, preview := none, loading := false, result := none, error := none }

theorem pickIdx_mem (l : List String) (i : Nat) (h : l ≠ []) : pickIdx l i ∈ l := by
  unfold pickIdx
  have hl : 0 < l.length := List.length_pos.2 h
  have hi : i % l.length < l.length := Nat.mod_lt _ hl
  rw [List.getD_eq_getElem?_getD, List.getElem?_eq_getElem hi]
  simp only [Option.getD_some]
  exact List.getElem_mem hi

/-! ## Claim theorems -/

/-- C1 (code bug evidence): the upload/analyze handlers perform no
size or media-type admission check.  A 15 MiB file and a non-image file
are both accepted by `handleImageUpload` (the stub collaborator is
invoked), and a 15 MiB file selected in the networked variant causes the
`fetch` to be issued; no `InvalidInput` condition exists anywhere in the
code.  This contradicts the documented "MAX. 10MB" limit the component
itself renders. -/
theorem c1_no_admission_checks :
    (handleImageUpload emptyState [] (some file15MiB) params0 draws0 false false false 1 2).gatewayCalled
      = true ∧
    (handleImageUpload emptyState [] (some filePdf) params0 draws0 false false false 3 4).gatewayCalled
      = true ∧
    (handleAnalyze "http://localhost:8000"
      { netEmpty with selectedFile := some file15MiB } (.success { status := "NO_CRACK" })).2
      = true := by
  refine ⟨rfl, rfl, rfl⟩

/-- C2 counterexample: in a state with an analysis already in flight
(`analyzing = true`), selecting a new image is *not* a no-op — the stub
collaborator is invoked a second time and the session state changes. -/
theorem c2_reentry_not_noop :
    busyState.analyzing = true ∧
    (handleImageUpload busyState [] (some fileJpeg) params0 draws0 false false false 5 5).gatewayCalled
      = true ∧
    (handleImageUpload busyState [] (some fileJpeg) params0 draws0 false false false 5 5).state
      ≠ busyState := by
  refine ⟨rfl, rfl, ?_⟩
  decide

/-- C2 (amended): while an analysis is in flight, re-entry is prevented
only at the UI layer — the networked variant's Analyze button is
rendered disabled whenever `loading` holds, and `handleAnalyze` is a
no-op exactly when no file is selected: with a file selected it issues
the network request even while `loading` is true (the handler carries no
in-flight guard); likewise `handleImageUpload` invoked while `Analyzing`
invokes the collaborator again and overwrites the held image. -/
theorem c2_guard_is_ui_only :
    (∀ st : NetState, st.loading = true → analyzeButtonDisabled st = true) ∧
    (∀ (apiUrl : String) (st : NetState) (o : FetchOutcome),
      st.selectedFile = none → handleAnalyze apiUrl st o = (st, false)) ∧
    (∀ (apiUrl : String) (st : NetState) (f : ImageFile) (o : FetchOutcome),
      st.selectedFile = some f → st.loading = true →
      (handleAnalyze apiUrl st o).2 = true) ∧
    (∀ (st : AppState) (s : Store) (f : ImageFile) (p : AnalysisParams) (r : RandomDraws)
        (gwFails setFails listFails : Bool) (tId tTs : Nat),
      st.analyzing = true →
      (handleImageUpload st s (some f) p r gwFails setFails listFails tId tTs).gatewayCalled
          = true ∧
      (handleImageUpload st s (some f) p r gwFails setFails listFails tId tTs).state.uploadedImage
          = some f.dataUrl) := by
  refine ⟨?_, ?_, ?_, ?_⟩
  · intro st h
    simp [analyzeButtonDisabled, h]
  · intro apiUrl st o h
    simp [handleAnalyze, h]
  · intro apiUrl st f o hf _
    cases o <;> simp [handleAnalyze, hf]
  · intro st s f p r gwFails setFails listFails tId tTs _
    cases gwFails <;> cases setFails <;> cases listFails <;>
      simp [handleImageUpload, loadHistoryStep]

/-- C2 witness: the amended statement instantiated at concrete inputs,
including a networked state that is mid-flight (`loading = true`) with a
file selected, where the request is issued regardless. -/
theorem c2_guard_is_ui_only_witness :
    analyzeButtonDisabled { netEmpty with loading := true } = true ∧
    handleAnalyze "u" netEmpty .failure = (netEmpty, false) ∧
    (handleAnalyze "u" { netEmpty with selectedFile := some fileJpeg, loading := true }
      .failure).2 = true ∧
    (handleImageUpload busyState [] (some fileJpeg) params0 draws0 false false false 7 8).gatewayCalled
      = true :=
  ⟨c2_guard_is_ui_only.1 { netEmpty with loading := true } rfl,
   c2_guard_is_ui_only.2.1 "u" netEmpty .failure rfl,
   c2_guard_is_ui_only.2.2.1 "u"
     { netEmpty with selectedFile := some fileJpeg, loading := true } fileJpeg .failure rfl rfl,
   (c2_guard_is_ui_only.2.2.2 busyState [] fileJpeg params0 draws0 false false false 7 8 rfl).1⟩

/-- C4: after a successful analysis whose store write fails, the result
set before the write is untouched, `analyzing` is cleared by the
`finally` (so the `result && !analyzing` card renders), the store and
the cached history are unchanged, and the failure is only logged via
`console.error` — no error state exists in the component. -/
theorem c4_store_failure_still_complete (st : AppState) (s : Store) (f : ImageFile)
    (p : AnalysisParams) (r : RandomDraws) (listFails : Bool) (tId tTs : Nat) :
    (handleImageUpload st s (some f) p r false true listFails tId tTs).state.result
        = some (analyzeCrack p r) ∧
    (handleImageUpload st s (some f) p r false true listFails tId tTs).state.analyzing = false ∧
    displayShowsResult (handleImageUpload st s (some f) p r false true listFails tId tTs).state
        = true ∧
    (handleImageUpload st s (some f) p r false true listFails tId tTs).store = s ∧
    (handleImageUpload st s (some f) p r false true listFails tId tTs).state.history
        = st.history ∧
    (handleImageUpload st s (some f) p r false true listFails tId tTs).consoleLog
        = ["Analysis failed:"] := by
  refine ⟨rfl, rfl, rfl, rfl, rfl, rfl⟩

/-- C10: when the `storage.list` call inside `loadHistory` throws, the
`catch` replaces the cached history with the empty list — regardless of
what the previous view contained — and leaves the rest of the session
state untouched; the failure is swallowed, not propagated. -/
theorem c10_list_failure_resets_history (st : AppState) (s : Store) :
    (loadHistoryStep st s (.error ())).history = [] ∧
    (loadHistoryStep st s (.error ())).uploadedImage = st.uploadedImage ∧
    (loadHistoryStep st s (.error ())).analyzing = st.analyzing ∧
    (loadHistoryStep st s (.error ())).result = st.result := by
  refine ⟨rfl, rfl, rfl, rfl⟩

theorem severityLevels_sub (sens : Sensitivity) :
    ∀ x ∈ severityLevels sens,
      x ∈ (["Severe", "Critical", "Major", "Moderate", "Significant", "Minor",
        "Hairline"] : List String) := by
  intro x hx
  cases sens <;>
    · simp only [severityLevels] at hx
      fin_cases hx <;> decide

theorem severityLevels_ne_nil (sens : Sensitivity) : severityLevels sens ≠ [] := by
  cases sens <;> simp [severityLevels]

/-- C7 counterexample: with medium sensitivity and the second random
branch the stub's Severity is `"Significant"`, which is not one of
`Low | Moderate | Severe | Critical`. -/
theorem c7_severity_outside_documented_set :
    (analyzeCrack params0 { draws0 with severityIdx := 1 }).severity = "Significant" ∧
    "Significant" ∉ (["Low", "Moderate", "Severe", "Critical"] : List String) := by
  refine ⟨rfl, by decide⟩

/-- C7 (amended): the stub's Severity is one of the seven values of its
`severityLevels` table (`Severe | Critical | Major` for high,
`Moderate | Significant` for medium, `Minor | Hairline` for low), and its
Risk Level is among `Low | Medium | High | Critical` (indeed it is always
one of `High | Medium | Low`). -/
theorem c7_severity_and_risk_ranges (p : AnalysisParams) (r : RandomDraws) :
    (analyzeCrack p r).severity ∈ (["Severe", "Critical", "Major", "Moderate",
      "Significant", "Minor", "Hairline"] : List String) ∧
    (analyzeCrack p r).riskLevel ∈ (["Low", "Medium", "High", "Critical"] : List String) := by
  constructor
  · have hrfl : (analyzeCrack p r).severity =
        pickIdx (severityLevels p.sensitivity) r.severityIdx := by
      simp [analyzeCrack]
    rw [hrfl]
    exact severityLevels_sub _ _ (pickIdx_mem _ _ (severityLevels_ne_nil _))
  · by_cases h1 : (strIncludes (pickIdx (severityLevels p.sensitivity) r.severityIdx) "Severe"
        || strIncludes (pickIdx (severityLevels p.sensitivity) r.severityIdx) "Critical") = true
    · have hr : (analyzeCrack p r).riskLevel = "High" := by
        simp only [analyzeCrack]
        rw [if_pos h1]
      rw [hr]
      decide
    · by_cases h2 : (strIncludes (pickIdx (severityLevels p.sensitivity) r.severityIdx) "Moderate"
          || strIncludes (pickIdx (severityLevels p.sensitivity) r.severityIdx) "Significant") = true
      · have hr : (analyzeCrack p r).riskLevel = "Medium" := by
          simp only [analyzeCrack]
          rw [if_neg (by simpa using h1), if_pos h2]
        rw [hr]
        decide
      · have hr : (analyzeCrack p r).riskLevel = "Low" := by
          simp only [analyzeCrack]
          rw [if_neg (by simpa using h1), if_neg (by simpa using h2)]
        rw [hr]
        decide

/-- Code-point list comparison: the model of JS string `<`
(lexicographic by code unit; the ids in play are ASCII). -/
def charListLt : List Char → List Char → Bool
  | [], [] => false
  | [], _ :: _ => true
  | _ :: _, [] => false
  | a :: as, b :: bs =>
    if a.toNat < b.toNat then true
    else if b.toNat < a.toNat then false
    else charListLt as bs

/-- JS string comparison `a < b`. -/
def strLtb (a b : String) : Bool := charListLt a.data b.data

/-- A result value used by history fixtures. -/
def resFix : AnalysisResult :=
  { crackType := "Structural", severity := "Moderate", pattern := "Vertical",
    depthAssessment := "Surface Only", riskLevel := "Medium", recommendedAction := none }

/-- A record stored earlier (smaller id), same timestamp as `recLate`. -/
def recEarly : AnalysisRecord :=
  { id := "2", timestamp := 5, image := "imgA", result := resFix }

/-- A record stored later (larger id), same timestamp as `recEarly`. -/
def recLate : AnalysisRecord :=
  { id := "9", timestamp := 5, image := "imgB", result := resFix }

/-- A store holding two records with equal timestamps, enumerated in
ascending id order. -/
def tieStore : Store :=
  [(pfx ++ "2", .record recEarly), (pfx ++ "9", .record recLate)]

/-- C5 counterexample: on a store with two equal-timestamp records the
view keeps enumeration order (JS sort stability); it is *not* ordered by
id descending, so the claimed total order (timestamp descending, ties by
id descending) does not hold. -/
theorem c5_tie_not_broken_by_id :
    loadHistoryView tieStore = [recEarly, recLate] ∧
    recEarly.timestamp = recLate.timestamp ∧
    strLtb recEarly.id recLate.id = true ∧
    ¬ List.Pairwise (fun a b : AnalysisRecord =>
        b.timestamp < a.timestamp ∨ (b.timestamp = a.timestamp ∧ strLtb b.id a.id = true))
      (loadHistoryView tieStore) := by
  refine ⟨by decide, rfl, by decide, by decide⟩

/-- C5 (amended): the history view is sorted by timestamp descending —
any record placed before another has a timestamp ≥ the later one's, so
for `A.timestamp < B.timestamp` the record `B` is placed before `A` —
and the sort is stable: records with equal timestamps keep the store's
enumeration order (they are *not* reordered by id). -/
theorem c5_sorted_desc_and_stable :
    (∀ s : Store, (loadHistoryView s).Pairwise
      (fun a b => b.timestamp ≤ a.timestamp)) ∧
    (∀ (l : List AnalysisRecord) (t : Nat),
      (sortTsDesc l).filter (fun q => q.timestamp = t)
        = l.filter (fun q => q.timestamp = t)) := by
  constructor
  · intro s
    unfold loadHistoryView historyOfKeys
    exact sortTsDesc_pairwise _
  · exact sortTsDesc_stable

/-- C6: corrupted entries never break the listing and never suppress
valid entries: (a) a store value that fails to deserialize contributes
nothing to the view — removing it leaves the view unchanged; (b) every
namespaced well-formed record in a duplicate-free store appears in the
view. -/
theorem c6_corrupt_dropped_valid_kept :
    (∀ (s₁ s₂ : Store) (k raw : String),
      (storeKeys (s₁ ++ (k, StoreValue.corrupt raw) :: s₂)).Nodup →
      loadHistoryView (s₁ ++ (k, StoreValue.corrupt raw) :: s₂)
        = loadHistoryView (s₁ ++ s₂)) ∧
    (∀ (s : Store) (k : String) (r : AnalysisRecord),
      (storeKeys s).Nodup → (k, StoreValue.record r) ∈ s →
      strStartsWith k pfx = true → r ∈ loadHistoryView s) := by
  constructor
  · intro s₁ s₂ k raw hnd
    have hsub : List.Sublist (storeKeys (s₁ ++ s₂))
        (storeKeys (s₁ ++ (k, StoreValue.corrupt raw) :: s₂)) := by
      rw [storeKeys_append, storeKeys_append]
      exact List.Sublist.append_left
        (show List.Sublist (storeKeys s₂) (storeKeys ((k, StoreValue.corrupt raw) :: s₂)) from
          List.Sublist.cons k (List.Sublist.refl _)) _
    have hnd' : (storeKeys (s₁ ++ s₂)).Nodup := hnd.sublist hsub
    rw [loadHistoryView_eq _ hnd, loadHistoryView_eq _ hnd']
    rw [directExtract_append, directExtract_corrupt_cons, directExtract_append]
  · intro s k r hnd hmem hp
    exact record_mem_loadHistoryView s k r hnd hmem hp

/-- C6 witness: a concrete store with one valid and one corrupted entry;
the corrupted entry is dropped and the valid one kept. -/
theorem c6_corrupt_dropped_valid_kept_witness :
    loadHistoryView ([(pfx ++ "1", StoreValue.record recEarly)]
        ++ (pfx ++ "x", StoreValue.corrupt "not json") :: [])
      = loadHistoryView ([(pfx ++ "1", StoreValue.record recEarly)] ++ []) ∧
    recEarly ∈ loadHistoryView [(pfx ++ "1", StoreValue.record recEarly)] :=
  ⟨c6_corrupt_dropped_valid_kept.1 [(pfx ++ "1", StoreValue.record recEarly)] []
      (pfx ++ "x") "not json" (by decide),
   c6_corrupt_dropped_valid_kept.2 [(pfx ++ "1", StoreValue.record recEarly)]
      (pfx ++ "1") recEarly (by decide) (by decide) (by decide)⟩

/-- C8: `deleteHistoryItem` is idempotent — applying it twice to the
same id produces exactly the same session state and store as applying
it once (the underlying `filter`-based delete is idempotent and the
history view is recomputed from the same store) — and deleting an id
with no entry under the namespace leaves the store unchanged (no error;
the function is total). -/
theorem c8_delete_idempotent :
    (∀ (st : AppState) (s : Store) (id : String),
      deleteHistoryItem (deleteHistoryItem st s id).1 (deleteHistoryItem st s id).2 id
        = deleteHistoryItem st s id) ∧
    (∀ (st : AppState) (s : Store) (id : String),
      (pfx ++ id) ∉ storeKeys s → (deleteHistoryItem st s id).2 = s) := by
  constructor
  · intro st s id
    have hdd : storageDelete (storageDelete s (pfx ++ id)) (pfx ++ id)
        = storageDelete s (pfx ++ id) := by
      unfold storageDelete
      rw [List.filter_filter]
      simp
    show deleteHistoryItem (loadHistoryStep st (storageDelete s (pfx ++ id))
        (.ok (some (storageList (storageDelete s (pfx ++ id)) pfx))))
        (storageDelete s (pfx ++ id)) id = _
    unfold deleteHistoryItem
    rw [hdd]
    rfl
  · intro st s id hfresh
    show storageDelete s (pfx ++ id) = s
    unfold storageDelete
    apply List.filter_eq_self.2
    intro kv hkv
    simp only [decide_eq_true_eq]
    intro he
    exact hfresh (he ▸ List.mem_map_of_mem Prod.fst hkv)

/-- C8 witness: deleting a non-existent id from a concrete store is a
no-op on the store, and the idempotence equation at a concrete input. -/
theorem c8_delete_idempotent_witness :
    (deleteHistoryItem emptyState tieStore "7").2 = tieStore ∧
    deleteHistoryItem (deleteHistoryItem emptyState tieStore "2").1
        (deleteHistoryItem emptyState tieStore "2").2 "2"
      = deleteHistoryItem emptyState tieStore "2" :=
  ⟨c8_delete_idempotent.2 emptyState tieStore "7" (by decide),
   c8_delete_idempotent.1 emptyState tieStore "2"⟩

/-- An upload whose analysis succeeds but whose store write fails. -/
def upWriteFail : Op := .upload fileJpeg params0 draws0 false true false 10 10

/-- C3 counterexample: one successful analysis whose store write fails
leaves zero records under the namespace, so the record count does not
equal successful analyses minus deletions, and "a Record is written iff
the analysis succeeds" fails in the if direction. -/
theorem c3_write_failure_store_empty :
    countRecords ((runOps (emptyState, ([] : Store)) [upWriteFail]).2) = 0 ∧
    successCount [upWriteFail] = 1 ∧
    delCount [upWriteFail] = 0 ∧
    countRecords ((runOps (emptyState, ([] : Store)) [upWriteFail]).2)
      ≠ successCount [upWriteFail] - delCount [upWriteFail] := by
  refine ⟨by decide, by decide, by decide, by decide⟩

/-- C3 (amended): a Record is written iff the analysis succeeds *and*
the store write succeeds: a failed analysis and a failed write each
leave the store untouched, and over any serialized run from an empty
store — with fresh record keys and deletions targeting present keys —
the number of entries under the namespace equals the number of
successfully persisted analyses minus the explicit deletions. -/
theorem c3_record_iff_persisted :
    (∀ (st : AppState) (s : Store) (f : ImageFile) (p : AnalysisParams) (r : RandomDraws)
        (setFails listFails : Bool) (tId tTs : Nat),
      (handleImageUpload st s (some f) p r true setFails listFails tId tTs).store = s) ∧
    (∀ (st : AppState) (s : Store) (f : ImageFile) (p : AnalysisParams) (r : RandomDraws)
        (listFails : Bool) (tId tTs : Nat),
      (handleImageUpload st s (some f) p r false true listFails tId tTs).store = s) ∧
    (∀ (st0 : AppState) (ops : List Op), WFRun (st0, ([] : Store)) ops →
      countRecords ((runOps (st0, ([] : Store)) ops).2) + delCount ops
        = persistedCount ops) := by
  refine ⟨?_, ?_, ?_⟩
  · intro st s f p r setFails listFails tId tTs
    rfl
  · intro st s f p r listFails tId tTs
    rfl
  · intro st0 ops hwf
    have hinv := run_count_invariant ops st0 [] (by simp [storeKeys]) hwf
    have h0 : countRecords ([] : Store) = 0 := rfl
    omega

/-- A well-formed two-operation run: one persisted analysis, then the
deletion of the record it wrote. -/
def opsPersistDelete : List Op :=
  [.upload fileJpeg params0 draws0 false false false 20 21, .del (natToString 20)]

/-- C3 witness: the amended count equation holds on a concrete
well-formed run (one persisted analysis, one deletion: zero records
remain). -/
theorem c3_record_iff_persisted_witness :
    WFRun (emptyState, ([] : Store)) opsPersistDelete ∧
    countRecords ((runOps (emptyState, ([] : Store)) opsPersistDelete).2)
        + delCount opsPersistDelete
      = persistedCount opsPersistDelete := by
  have hwf : WFRun (emptyState, ([] : Store)) opsPersistDelete := by
    refine ⟨?_, ?_, trivial⟩
    · intro _
      decide
    · decide
  exact ⟨hwf, c3_record_iff_persisted.2.2 emptyState opsPersistDelete hwf⟩

/-- An upload with both clock readings equal to `t` (the millisecond of
`Date.now()` during the handler). -/
def upClock (t : Nat) : Op := .upload fileJpeg params0 draws0 false false false t t

/-- C9 counterexample: two successful analyses completing in the same
millisecond build records with the *same* id (`Date.now().toString()`),
and the second `storage.set` overwrites the first — only one entry
remains under the namespace. -/
theorem c9_same_millisecond_ids_collide :
    (createdRecords [upClock 100, upClock 100]).map AnalysisRecord.id
      = [natToString 100, natToString 100] ∧
    ¬ ((createdRecords [upClock 100, upClock 100]).map AnalysisRecord.id).Nodup ∧
    countRecords ((runOps (emptyState, ([] : Store)) [upClock 100, upClock 100]).2) = 1 := by
  refine ⟨by decide, by decide, by decide⟩

/-- C9 (amended): every record's id is the decimal string of the clock
reading taken at its creation; records created at pairwise-distinct
id-clock readings have pairwise-distinct ids (uniqueness holds only
under that proviso — same-millisecond creations collide); and when the
clock readings are non-decreasing over the session, the created records'
timestamps are non-decreasing in creation order. -/
theorem c9_ids_time_derived :
    (∀ ops : List Op, (createdRecords ops).map AnalysisRecord.id
      = (createdIdReads ops).map natToString) ∧
    (∀ ops : List Op, (createdIdReads ops).Nodup →
      ((createdRecords ops).map AnalysisRecord.id).Nodup) ∧
    (∀ ops : List Op, List.Chain' (· ≤ ·) (clockReads ops) →
      List.Chain' (· ≤ ·) ((createdRecords ops).map AnalysisRecord.timestamp)) := by
  refine ⟨createdIds_eq, ?_, ?_⟩
  · intro ops h
    rw [createdIds_eq]
    exact List.Nodup.map natToString_injective h
  · intro ops h
    have hp : List.Pairwise (· ≤ ·) (clockReads ops) := List.chain'_iff_pairwise.mp h
    exact List.chain'_iff_pairwise.mpr (List.Pairwise.sublist (createdTs_sublist ops) hp)

/-- C9 witness: a run with two distinct, increasing clock readings:
distinct ids and non-decreasing timestamps. -/
theorem c9_ids_time_derived_witness :
    List.Chain' (· ≤ ·) (clockReads [upClock 30, upClock 31]) ∧
    (createdIdReads [upClock 30, upClock 31]).Nodup ∧
    ((createdRecords [upClock 30, upClock 31]).map AnalysisRecord.id).Nodup ∧
    List.Chain' (· ≤ ·)
      ((createdRecords [upClock 30, upClock 31]).map AnalysisRecord.timestamp) := by
  have hcr : clockReads [upClock 30, upClock 31] = [30, 30, 31, 31] := by decide
  have hchain : List.Chain' (· ≤ ·) (clockReads [upClock 30, upClock 31]) := by
    rw [hcr]
    norm_num [List.chain'_cons]
  refine ⟨hchain, by decide,
    c9_ids_time_derived.2.1 [upClock 30, upClock 31] (by decide),
    c9_ids_time_derived.2.2 [upClock 30, upClock 31] hchain⟩
